import Mathlib

/-!
# Options Resolution & File-Set Expansion — verification of `src/utils/OptionUtils.js`

A shallow embedding of the option-resolution pipeline of the
`grunt-mutation-testing` repository (file `src/utils/OptionUtils.js`):
merging of layered raw options (lodash `_.merge`), glob-based file
expansion (`expandFiles`), required-field validation
(`areRequiredOptionsSet`) and injection of the derived reporter/ignore
defaults, together with theorems about the claims of the specification.
-/

set_option autoImplicit false

namespace OptionUtils

/--
A JavaScript value, as far as the option pipeline can observe it.
`regex` holds the source text of a RegExp literal (a RegExp is an atomic,
non-plain object for lodash merge); `func` holds the name of a function
value (functions are likewise atomic).  Objects are insertion-ordered
association lists, mirroring JS own-property order; `undefined` is
represented by the *absence* of a key, never by a value.
-/
inductive JsVal where
  | null
  | bool (b : Bool)
  | num (n : Int)
  | str (s : String)
  | regex (source : String)
  | func (name : String)
  | arr (elems : List JsVal)
  | obj (fields : List (String × JsVal))
deriving Repr, Inhabited

/-- Strict mode is in force in the source file (`use strict`): this is the
TypeError raised by a property write whose base is a primitive value. -/
def TYPE_ERROR : String := "TypeError: Cannot create property on a primitive value"

/-- A JS object: an insertion-ordered association list of own properties. -/
abbrev Obj := List (String × JsVal)

/-- Property read (`o[k]`): the binding of key `k`, `none` for absence. -/
def getField : Obj → String → Option JsVal
  | [], _ => none
  | (k2, v) :: rest, k => if k2 == k then some v else getField rest k

/-- JS `o.hasOwnProperty(k)`. -/
def hasOwn (o : Obj) (k : String) : Bool :=
  (getField o k).isSome

/--
Property write (`o[k] = v`): overwrites an existing binding in place
(keeping its position), otherwise appends the new binding at the end —
JS own-property insertion order.
-/
def setField : Obj → String → JsVal → Obj
  | [], k, v => [(k, v)]
  | (k2, w) :: rest, k, v =>
      if k2 == k then (k2, v) :: rest else (k2, w) :: setField rest k v

/-- JS truthiness of a value. -/
def truthy : JsVal → Bool
  | .null => false
  | .bool b => b
  | .num n => n != 0
  | .str s => !s.isEmpty
  | .regex _ => true
  | .func _ => true
  | .arr _ => true
  | .obj _ => true

/-- JS truthiness of a property read (`undefined`, i.e. absence, is falsy). -/
def truthyOpt : Option JsVal → Bool
  | none => false
  | some v => truthy v

mutual
/--
lodash `_.merge` of a source value `s` over a destination value `d`
(`none` when the destination key is absent): an array or plain-object
source is merged recursively — index-wise for arrays, key-wise for
objects, starting from an empty container when the destination value is
not of the same container kind — and every other source value overwrites
the destination.
-/
def mergeVal : Option JsVal → JsVal → JsVal
  | d, .obj sf =>
      .obj (mergeFields (match d with | some (.obj df) => df | _ => []) sf)
  | d, .arr sa =>
      .arr (mergeElems (match d with | some (.arr da) => da | _ => []) sa)
  | _, .null => .null
  | _, .bool b => .bool b
  | _, .num n => .num n
  | _, .str s => .str s
  | _, .regex r => .regex r
  | _, .func f => .func f

/-- lodash `_.merge` of the fields of a source object into a destination object. -/
def mergeFields (df : Obj) : List (String × JsVal) → Obj
  | [] => df
  | (k, v) :: rest => mergeFields (setField df k (mergeVal (getField df k) v)) rest

/--
lodash `_.merge` of a source array into a destination array: index-wise
recursive merge; destination elements beyond the source's length survive.
-/
def mergeElems (da : List JsVal) : List JsVal → List JsVal
  | [] => da
  | s :: ss =>
      match da with
      | [] => mergeVal none s :: mergeElems [] ss
      | d :: ds => mergeVal (some d) s :: mergeElems ds ss
end

/-- The string a value contributes when used as a path segment
(`path.join(basePath, fileName)` accepts only strings; non-string
arguments would raise in Node and are outside every claim, so they are
mapped to `""`). -/
def asStr : JsVal → String
  | .str s => s
  | _ => ""

/-- A list of path strings, as the JS array value that stores it. -/
def strArr (xs : List String) : JsVal :=
  .arr (xs.map .str)

/-- JS `v.length === 0`: `true` exactly for an empty array or an empty
string; every other value's `length` is `undefined` (or a function's
arity), never strictly equal to `0`. -/
def lengthIsZero : JsVal → Bool
  | .arr xs => xs.isEmpty
  | .str s => s.isEmpty
  | _ => false

/-- Read a property of a value: only objects have own properties here. -/
def propOf : JsVal → String → Option JsVal
  | .obj fs, k => getField fs k
  | _, _ => none

/-- JS `[x].concat(v)`: `Array.prototype.concat` splices in an array
argument and appends any other argument as a single element. -/
def jsConcat (xs : List JsVal) (v : JsVal) : List JsVal :=
  match v with
  | .arr ys => xs ++ ys
  | _ => xs ++ [v]

/-- Accumulator step of lodash `_.union`: append `x` unless already present. -/
def insertUniq (acc : List String) (x : String) : List String :=
  if x ∈ acc then acc else acc ++ [x]

/-- Keep the first occurrence of every element, preserving first-seen order. -/
def dedupFirst (xs : List String) : List String :=
  xs.foldl insertUniq []

/-- lodash `_.union(xs, ys)`: the unique values of `xs ++ ys` in
first-occurrence order. -/
def lodashUnion (xs ys : List String) : List String :=
  dedupFirst (xs ++ ys)

/-- The `CALL_DONE` placeholder lifecycle callback (`done(true)`), an
atomic function value for the merge. -/
def CALL_DONE : JsVal := .func "CALL_DONE"

/-- The `DEFAULT_OPTIONS` constant of the source. -/
def DEFAULT_OPTIONS : Obj :=
  [ ("before", CALL_DONE),
    ("beforeEach", CALL_DONE),
    ("test", CALL_DONE),
    ("afterEach", CALL_DONE),
    ("after", CALL_DONE),
    ("basePath", .str "."),
    ("testFramework", .str "karma"),
    ("logLevel", .str "INFO"),
    ("maxReportedMutationLength", .num 80),
    ("mutateProductionCode", .bool false) ]

/-- The `DEFAULT_REPORTER` constant: report only to the console. -/
def DEFAULT_REPORTER : Obj :=
  [("console", .bool true)]

/-- The `DEFAULT_IGNORE` constant: the RegExp matching the
`use strict` directive (its source text, written with `\x27` for the
single quotes). -/
def DEFAULT_IGNORE : JsVal :=
  .regex "(\x27use strict\x27|\"use strict\");"

/--
Source `areRequiredOptionsSet(opts)`: the chained conditional of the source,
returning the error message of the first failing check or `none` (JS
`null`) when all six checks pass.
-/
def areRequiredOptionsSet (opts : Obj) : Option String :=
  if !hasOwn opts "code" then some "Options has no own code property"
  else if !hasOwn opts "specs" then some "Options has no own specs property"
  else if !hasOwn opts "mutate" then some "Options has no own mutate property"
  else if lengthIsZero ((getField opts "code").getD .null) then some "Code property is empty"
  else if lengthIsZero ((getField opts "specs").getD .null) then some "Specs property is empty"
  else if lengthIsZero ((getField opts "mutate").getD .null) then some "Mutate property is empty"
  else none

/-- Source `ensureReportersConfig(opts)`: set the default reporter only when no
`reporters` key is present at all. -/
def ensureReportersConfig (opts : Obj) : Obj :=
  if !hasOwn opts "reporters" then
    setField opts "reporters" (.obj DEFAULT_REPORTER)
  else
    opts

/-- Source `ensureIgnoreConfig(opts)`: unless `discardDefaultIgnore` is truthy,
assign `opts.ignore = opts.ignore ? [DEFAULT_IGNORE].concat(opts.ignore)
: DEFAULT_IGNORE` (a truthiness test on the current `ignore` value). -/
def ensureIgnoreConfig (opts : Obj) : Obj :=
  if !truthyOpt (getField opts "discardDefaultIgnore") then
    setField opts "ignore"
      (match getField opts "ignore" with
       | some v => if truthy v then .arr (jsConcat [DEFAULT_IGNORE] v) else DEFAULT_IGNORE
       | none => DEFAULT_IGNORE)
  else
    opts

/--
Source `expandFiles(files, basePath)`: normalize `files` to a list (`[]` when
falsy, a singleton when not an array), then left-fold lodash `_.union`
of each pattern's filesystem matches.  `globSync basePath fileName`
abstracts `glob.sync(path.join(basePath, fileName), {dot: true,
nodir: true})` — the filesystem oracle already joined with the base
path, matching dotfiles and excluding directories.
-/
def expandFiles (globSync : String → String → List String)
    (files : Option JsVal) (basePath : String) : List String :=
  let fileList : List JsVal :=
    match files with
    | some v =>
        if truthy v then (match v with | .arr xs => xs | w => [w]) else []
    | none => []
  fileList.foldl (fun acc f => lodashUnion acc (globSync basePath (asStr f))) []

/-- Line 112 of the source, `_.merge({}, DEFAULT_OPTIONS, globalOpts, localOpts)`:
the deep merge of the two raw layers over the defaults into a fresh
object. -/
def mergedOpts (globalOpts localOpts : Obj) : Obj :=
  mergeFields (mergeFields (mergeFields [] DEFAULT_OPTIONS) globalOpts) localOpts

/-- The `opts.basePath` value handed to `path.join` (a non-string value
would make `path.join` raise and is outside every claim). -/
def basePathOf (o : Obj) : String :=
  asStr ((getField o "basePath").getD .null)

/--
Lines 118–120 of the source: replace `code`, `specs` and `mutate` in
turn by their expanded file lists, reading `basePath` from the current
object at each step, as the source does.
-/
def expandMandatory (globSync : String → String → List String) (opts : Obj) : Obj :=
  let opts1 := setField opts "code"
    (strArr (expandFiles globSync (getField opts "code") (basePathOf opts)))
  let opts2 := setField opts1 "specs"
    (strArr (expandFiles globSync (getField opts1 "specs") (basePathOf opts1)))
  setField opts2 "mutate"
    (strArr (expandFiles globSync (getField opts2 "mutate") (basePathOf opts2)))

/--
Lines 118–124 of the source: the three unconditional expansions, then,
when `karma` is truthy, assignment of the expanded `karma.notIncluded`.
Only a truthy *primitive* `karma` (boolean, number, string) makes the
strict-mode property write `opts.karma.notIncluded = …` raise a
TypeError.  Arrays, functions and RegExps are JS objects: the write
succeeds on them and the pass continues to validation.  Such values
carry no `notIncluded` key in this value model, so the attached
property is always the empty expansion `[]`; these constructors cannot
represent a named own property, so that attachment is omitted from the
returned value (no claim concerns it) and the object is otherwise
passed through.
-/
def expandOpts (globSync : String → String → List String) (opts : Obj) :
    Except String Obj :=
  let opts3 := expandMandatory globSync opts
  match getField opts3 "karma" with
  | some karma =>
      if truthy karma then
        match karma with
        | .obj kf =>
            .ok (setField opts3 "karma"
              (.obj (setField kf "notIncluded"
                (strArr (expandFiles globSync (getField kf "notIncluded")
                  (basePathOf opts3))))))
        | .arr _ => .ok opts3
        | .func _ => .ok opts3
        | .regex _ => .ok opts3
        | _ => .error TYPE_ERROR
      else
        .ok opts3
  | none => .ok opts3

/-- The process-wide log4js state: the global level name set through
`log4js.levels[…]` and whether the fixed `LOG_OPTIONS` appender layout
has been applied. -/
structure LoggerState where
  globalLevel : String
  configured : Bool
deriving Repr

/-- What one `getOptions` call returns and emits: the JS return value
(`none` models the `null` sentinel) and the `grunt.warn` messages. -/
structure Resolution where
  result : Option Obj
  warnings : List String
deriving Repr

/-- The fixed text prepended to the single validation warning. -/
def WARN_HEAD : String := "Not all required options have been set properly. "

/--
Source `getOptions(grunt, task)`: `globalOpts` and `localOpts` stand for
`grunt.config(task.name).options` and
`grunt.config([task.name, task.target]).options`; `_st` is the ambient
log4js state, which the source overwrites but never reads.  Merge the
layers over the defaults, set the global logger, expand the file
patterns, then either warn once and return `null`, or inject the
reporter and ignore defaults and return the options.
-/
def getOptions (globSync : String → String → List String)
    (globalOpts localOpts : Obj) (_st : LoggerState) :
    Except String Resolution × LoggerState :=
  let opts := mergedOpts globalOpts localOpts
  let newSt : LoggerState :=
    { globalLevel := asStr ((getField opts "logLevel").getD .null), configured := true }
  match expandOpts globSync opts with
  | .error e => (.error e, newSt)
  | .ok expanded =>
      match areRequiredOptionsSet expanded with
      | some err => (.ok { result := none, warnings := [WARN_HEAD ++ err] }, newSt)
      | none =>
          (.ok { result := some (ensureIgnoreConfig (ensureReportersConfig expanded)),
                 warnings := [] }, newSt)

/-! ## Claim-side definitions

Definitions below follow the words of the specification (not the
source); theorems relate them to the source functions above. -/

/-- The six required-option checks, named after the specification. -/
inductive ReqCheck where
  | codeOwn
  | specsOwn
  | mutateOwn
  | codeNonEmpty
  | specsNonEmpty
  | mutateNonEmpty
deriving Repr, DecidableEq

/-- The field a required-option check is about. -/
def checkField : ReqCheck → String
  | .codeOwn => "code"
  | .specsOwn => "specs"
  | .mutateOwn => "mutate"
  | .codeNonEmpty => "code"
  | .specsNonEmpty => "specs"
  | .mutateNonEmpty => "mutate"

/-- Whether a check holds of a merged-and-expanded options object, per
the specification: own-field presence of `code`/`specs`/`mutate`, then
non-emptiness of the expanded (list-valued) fields. -/
def checkHolds (opts : Obj) : ReqCheck → Bool
  | .codeOwn => hasOwn opts "code"
  | .specsOwn => hasOwn opts "specs"
  | .mutateOwn => hasOwn opts "mutate"
  | .codeNonEmpty =>
      match getField opts "code" with | some (.arr xs) => !xs.isEmpty | _ => false
  | .specsNonEmpty =>
      match getField opts "specs" with | some (.arr xs) => !xs.isEmpty | _ => false
  | .mutateNonEmpty =>
      match getField opts "mutate" with | some (.arr xs) => !xs.isEmpty | _ => false

/-- The fixed evaluation order of the six checks, per the specification. -/
def REQUIRED_CHECKS : List ReqCheck :=
  [.codeOwn, .specsOwn, .mutateOwn, .codeNonEmpty, .specsNonEmpty, .mutateNonEmpty]

/-- The first failing check in the specified order, if any
(short-circuit semantics: later checks are irrelevant once one fails). -/
def specFirstFailure (opts : Obj) : Option ReqCheck :=
  REQUIRED_CHECKS.find? (fun c => !checkHolds opts c)

/-- The source's error message for each check. -/
def sourceMsg : ReqCheck → String
  | .codeOwn => "Options has no own code property"
  | .specsOwn => "Options has no own specs property"
  | .mutateOwn => "Options has no own mutate property"
  | .codeNonEmpty => "Code property is empty"
  | .specsNonEmpty => "Specs property is empty"
  | .mutateNonEmpty => "Mutate property is empty"

/-- ASCII lower-casing of one character. -/
def charLower (c : Char) : Char :=
  if 65 ≤ c.toNat ∧ c.toNat ≤ 90 then Char.ofNat (c.toNat + 32) else c

/-- Whether `sub` occurs at the start of `hay`. -/
def listStarts : List Char → List Char → Bool
  | _, [] => true
  | [], _ :: _ => false
  | h :: t, s :: ss => h == s && listStarts t ss

/-- Whether `sub` occurs anywhere in `hay`. -/
def listHasSub : List Char → List Char → Bool
  | [], sub => sub.isEmpty
  | h :: t, sub => listStarts (h :: t) sub || listHasSub t sub

/-- A message names a field when the field's name occurs in it
(case-insensitively). -/
def msgNames (msg field : String) : Prop :=
  listHasSub (msg.toList.map charLower) field.toList = true

/-- One merge layer applied to the value a key resolves to so far
(`none` = the key is absent at this layer): an absent source key leaves
the value; a present one deep-merges over it. -/
def applyLayer (d : Option JsVal) : Option JsVal → Option JsVal
  | none => d
  | some sv => some (mergeVal d sv)

/-- A value that lodash merge copies wholesale (not an array, not a
plain object). -/
def isScalar : JsVal → Bool
  | .arr _ => false
  | .obj _ => false
  | _ => true

/-- A JS primitive value (`null`, boolean, number, string): exactly the
values a strict-mode property write raises a TypeError on.  Arrays,
functions, RegExps and plain objects are all JS objects. -/
def isPrimitive : JsVal → Bool
  | .null => true
  | .bool _ => true
  | .num _ => true
  | .str _ => true
  | _ => false

/-- A concrete filesystem oracle for witnesses: every pattern matches
exactly the one file named by joining it to the base path. -/
def oneFileGlob : String → String → List String :=
  fun b p => [b ++ "/" ++ p]

/-! ## Lemmas about property access -/

@[simp]
theorem getField_setField_self (o : Obj) (k : String) (v : JsVal) :
    getField (setField o k v) k = some v := by
  induction o with
  | nil => simp [setField, getField]
  | cons p rest ih =>
      obtain ⟨k2, w⟩ := p
      by_cases h : k2 = k
      · simp [setField, getField, h]
      · simp [setField, getField, h, ih]

theorem getField_setField_ne (o : Obj) (k k' : String) (v : JsVal)
    (h : k' ≠ k) : getField (setField o k v) k' = getField o k' := by
  have hne : ¬(k = k') := fun hh => h hh.symm
  induction o with
  | nil => simp [setField, getField, hne]
  | cons p rest ih =>
      obtain ⟨k2, w⟩ := p
      by_cases h2 : k2 = k
      · subst h2
        simp [setField, getField, hne]
      · simp [setField, getField, h2, ih]

theorem getField_eq_none_of_not_mem (o : Obj) (k : String)
    (h : k ∉ o.map Prod.fst) : getField o k = none := by
  induction o with
  | nil => rfl
  | cons p rest ih =>
      obtain ⟨k2, w⟩ := p
      simp only [List.map_cons, List.mem_cons] at h
      push_neg at h
      have hne : ¬(k2 = k) := fun hh => h.1 hh.symm
      simp [getField, hne, ih h.2]

/-! ## Lemmas about the lodash merge -/

theorem mergeVal_scalar (d : Option JsVal) (v : JsVal) (h : isScalar v = true) :
    mergeVal d v = v := by
  cases v <;> simp_all [isScalar, mergeVal]

theorem getField_mergeFields (s : Obj) : ∀ (d : Obj) (k : String),
    (s.map Prod.fst).Nodup →
    getField (mergeFields d s) k = applyLayer (getField d k) (getField s k) := by
  induction s with
  | nil => intro d k _; simp [mergeFields, getField, applyLayer]
  | cons p rest ih =>
      intro d k hnd
      obtain ⟨k1, v1⟩ := p
      simp only [List.map_cons, List.nodup_cons] at hnd
      by_cases hk : k1 = k
      · subst hk
        have h1 : getField rest k1 = none :=
          getField_eq_none_of_not_mem rest k1 hnd.1
        rw [mergeFields, ih _ _ hnd.2, h1]
        simp [applyLayer, getField]
      · rw [mergeFields, ih _ _ hnd.2,
          getField_setField_ne _ _ _ _ (fun hh => hk hh.symm)]
        simp [getField, hk]

theorem getField_mergedOpts (g l : Obj) (k : String)
    (hg : (g.map Prod.fst).Nodup) (hl : (l.map Prod.fst).Nodup) :
    getField (mergedOpts g l) k =
      applyLayer (applyLayer (getField DEFAULT_OPTIONS k) (getField g k))
        (getField l k) := by
  have hbase : mergeFields ([] : Obj) DEFAULT_OPTIONS = DEFAULT_OPTIONS := rfl
  unfold mergedOpts
  rw [getField_mergeFields _ _ _ hl, getField_mergeFields _ _ _ hg, hbase]

/-! ## Lemmas about union and de-duplication -/

theorem insertUniq_nodup (acc : List String) (x : String) (h : acc.Nodup) :
    (insertUniq acc x).Nodup := by
  unfold insertUniq
  split
  · exact h
  · next hx => simp [List.nodup_append, h, hx]

theorem foldl_insertUniq_nodup (l : List String) : ∀ (acc : List String),
    acc.Nodup → (l.foldl insertUniq acc).Nodup := by
  induction l with
  | nil => intro acc h; simpa using h
  | cons x xs ih =>
      intro acc h
      simpa using ih _ (insertUniq_nodup acc x h)

theorem dedupFirst_nodup (xs : List String) : (dedupFirst xs).Nodup :=
  foldl_insertUniq_nodup xs [] (by simp)

theorem foldl_insertUniq_of_nodup (a : List String) : ∀ (acc : List String),
    a.Nodup → (∀ x ∈ a, x ∉ acc) → a.foldl insertUniq acc = acc ++ a := by
  induction a with
  | nil => intro acc _ _; simp
  | cons x xs ih =>
      intro acc hnd hdis
      simp only [List.nodup_cons] at hnd
      have hx : x ∉ acc := hdis x (by simp)
      have step : insertUniq acc x = acc ++ [x] := by simp [insertUniq, hx]
      have hdis2 : ∀ y ∈ xs, y ∉ acc ++ [x] := by
        intro y hy
        simp only [List.mem_append, List.mem_singleton]
        push_neg
        exact ⟨hdis y (by simp [hy]), fun hyx => hnd.1 (hyx ▸ hy)⟩
      calc (x :: xs).foldl insertUniq acc
        = xs.foldl insertUniq (acc ++ [x]) := by simp [step]
      _ = (acc ++ [x]) ++ xs := ih _ hnd.2 hdis2
      _ = acc ++ (x :: xs) := by simp

theorem dedupFirst_of_nodup (a : List String) (h : a.Nodup) :
    dedupFirst a = a := by
  simpa [dedupFirst] using foldl_insertUniq_of_nodup a [] h (by simp)

theorem lodashUnion_eq_foldl (a l : List String) (h : a.Nodup) :
    lodashUnion a l = l.foldl insertUniq a := by
  have ha : a.foldl insertUniq [] = a := dedupFirst_of_nodup a h
  rw [lodashUnion, dedupFirst, List.foldl_append, ha]

theorem foldl_lodashUnion (ls : List (List String)) : ∀ (acc : List String),
    acc.Nodup →
    ls.foldl (fun a l => lodashUnion a l) acc = ls.flatten.foldl insertUniq acc := by
  induction ls with
  | nil => intro acc _; simp
  | cons hd tl ih =>
      intro acc h
      simp only [List.foldl_cons, List.flatten_cons, List.foldl_append]
      rw [lodashUnion_eq_foldl _ _ h, ih _ (foldl_insertUniq_nodup hd acc h)]

/-! ## Lemmas about file expansion -/

theorem expandFiles_none (γ : String → String → List String) (b : String) :
    expandFiles γ none b = [] := rfl

theorem expandFiles_arr (γ : String → String → List String) (b : String)
    (ps : List String) :
    expandFiles γ (some (.arr (ps.map .str))) b
      = dedupFirst ((ps.map (γ b)).flatten) := by
  unfold expandFiles
  simp only [truthy, if_true]
  rw [List.foldl_map]
  have hstep : (fun (acc : List String) (p : String) =>
      lodashUnion acc (γ b (asStr (.str p))))
      = fun acc p => lodashUnion acc (γ b p) := by
    funext acc p; rfl
  rw [hstep, ← List.foldl_map (γ b) (fun a l => lodashUnion a l)]
  rw [foldl_lodashUnion _ _ (by simp)]
  rfl

theorem expandFiles_single (γ : String → String → List String) (b : String)
    (p : String) (hp : p ≠ "") :
    expandFiles γ (some (.str p)) b = dedupFirst (γ b p) := by
  have ht : truthy (.str p) = true := by
    have : p.isEmpty = false := by
      rcases Bool.eq_false_or_eq_true p.isEmpty with h | h
      · exact absurd ((String.isEmpty_iff p).mp h) hp
      · exact h
    simp [truthy, this]
  unfold expandFiles
  simp only [ht, if_true]
  show lodashUnion [] (γ b (asStr (.str p))) = dedupFirst (γ b p)
  simp [lodashUnion, asStr]

theorem foldl_lodashUnion_nodup (g : JsVal → List String) :
    ∀ (fl : List JsVal) (acc : List String), acc.Nodup →
    (fl.foldl (fun a f => lodashUnion a (g f)) acc).Nodup := by
  intro fl
  induction fl with
  | nil => intro acc h; simpa using h
  | cons x xs ih =>
      intro acc h
      simpa using ih _ (dedupFirst_nodup _)

theorem expandFiles_nodup (γ : String → String → List String)
    (files : Option JsVal) (b : String) : (expandFiles γ files b).Nodup := by
  unfold expandFiles
  exact foldl_lodashUnion_nodup (fun f => γ b (asStr f)) _ [] (by simp)

/-! ## Lemmas about the expansion pass -/

theorem basePathOf_setField (o : Obj) (k : String) (v : JsVal)
    (h : ("basePath" : String) ≠ k) : basePathOf (setField o k v) = basePathOf o := by
  simp [basePathOf, getField_setField_ne o k "basePath" v h]

theorem expandMandatory_code (γ : String → String → List String) (o : Obj) :
    getField (expandMandatory γ o) "code"
      = some (strArr (expandFiles γ (getField o "code") (basePathOf o))) := by
  unfold expandMandatory
  rw [getField_setField_ne _ _ _ _ (by decide),
    getField_setField_ne _ _ _ _ (by decide), getField_setField_self]

theorem expandMandatory_specs (γ : String → String → List String) (o : Obj) :
    getField (expandMandatory γ o) "specs"
      = some (strArr (expandFiles γ (getField o "specs") (basePathOf o))) := by
  unfold expandMandatory
  rw [getField_setField_ne _ _ _ _ (by decide), getField_setField_self,
    getField_setField_ne _ _ _ _ (by decide),
    basePathOf_setField _ _ _ (by decide)]

theorem expandMandatory_mutate (γ : String → String → List String) (o : Obj) :
    getField (expandMandatory γ o) "mutate"
      = some (strArr (expandFiles γ (getField o "mutate") (basePathOf o))) := by
  unfold expandMandatory
  rw [getField_setField_self,
    getField_setField_ne _ _ _ _ (by decide),
    getField_setField_ne _ _ _ _ (by decide),
    basePathOf_setField _ _ _ (by decide),
    basePathOf_setField _ _ _ (by decide)]

theorem expandMandatory_other (γ : String → String → List String) (o : Obj)
    (k : String) (h1 : k ≠ "code") (h2 : k ≠ "specs") (h3 : k ≠ "mutate") :
    getField (expandMandatory γ o) k = getField o k := by
  unfold expandMandatory
  rw [getField_setField_ne _ _ _ _ h3, getField_setField_ne _ _ _ _ h2,
    getField_setField_ne _ _ _ _ h1]

theorem expandMandatory_basePath (γ : String → String → List String) (o : Obj) :
    basePathOf (expandMandatory γ o) = basePathOf o := by
  simp [basePathOf,
    expandMandatory_other γ o "basePath" (by decide) (by decide) (by decide)]

theorem expandOpts_ok_cases (γ : String → String → List String) (o o' : Obj)
    (h : expandOpts γ o = .ok o') :
    o' = expandMandatory γ o ∨
    (∃ kf, getField (expandMandatory γ o) "karma" = some (.obj kf) ∧
      o' = setField (expandMandatory γ o) "karma"
        (.obj (setField kf "notIncluded"
          (strArr (expandFiles γ (getField kf "notIncluded")
            (basePathOf (expandMandatory γ o))))))) := by
  unfold expandOpts at h
  rcases hk : getField (expandMandatory γ o) "karma" with _ | karma
  · simp only [hk] at h
    simp only [Except.ok.injEq] at h
    exact Or.inl h.symm
  · simp only [hk] at h
    by_cases ht : truthy karma
    · simp only [ht, if_true] at h
      cases karma with
      | obj kf =>
          simp only [Except.ok.injEq] at h
          exact Or.inr ⟨kf, rfl, h.symm⟩
      | null => simp [truthy] at ht
      | bool b => exact absurd h (by simp)
      | num n => exact absurd h (by simp)
      | str s => exact absurd h (by simp)
      | regex r =>
          simp only [Except.ok.injEq] at h
          exact Or.inl h.symm
      | func f =>
          simp only [Except.ok.injEq] at h
          exact Or.inl h.symm
      | arr xs =>
          simp only [Except.ok.injEq] at h
          exact Or.inl h.symm
    · simp only [ht, if_false, Bool.false_eq_true] at h
      simp only [Except.ok.injEq] at h
      exact Or.inl h.symm

theorem expandOpts_shape (γ : String → String → List String) (o o' : Obj)
    (h : expandOpts γ o = .ok o') :
    getField o' "code"
        = some (strArr (expandFiles γ (getField o "code") (basePathOf o))) ∧
    getField o' "specs"
        = some (strArr (expandFiles γ (getField o "specs") (basePathOf o))) ∧
    getField o' "mutate"
        = some (strArr (expandFiles γ (getField o "mutate") (basePathOf o))) := by
  rcases expandOpts_ok_cases γ o o' h with he | ⟨kf, _, he⟩
  · subst he
    exact ⟨expandMandatory_code γ o, expandMandatory_specs γ o,
      expandMandatory_mutate γ o⟩
  · subst he
    rw [getField_setField_ne _ _ _ _ (by decide),
      getField_setField_ne _ _ _ _ (by decide),
      getField_setField_ne _ _ _ _ (by decide)]
    exact ⟨expandMandatory_code γ o, expandMandatory_specs γ o,
      expandMandatory_mutate γ o⟩

/--
**C6.** The three "field missing" validation outcomes are unreachable:
a completed expansion pass always assigns own `code`, `specs` and
`mutate` fields (possibly as empty lists), so every validation failure
on its output is one of the three emptiness messages.
-/
theorem validation_missing_unreachable (γ : String → String → List String)
    (o o' : Obj) (h : expandOpts γ o = .ok o') :
    hasOwn o' "code" = true ∧ hasOwn o' "specs" = true ∧
    hasOwn o' "mutate" = true ∧
    (∀ e, areRequiredOptionsSet o' = some e →
      e = "Code property is empty" ∨ e = "Specs property is empty" ∨
      e = "Mutate property is empty") := by
  obtain ⟨hc, hs, hm⟩ := expandOpts_shape γ o o' h
  refine ⟨by simp [hasOwn, hc], by simp [hasOwn, hs], by simp [hasOwn, hm], ?_⟩
  intro e he
  unfold areRequiredOptionsSet at he
  simp only [hasOwn, hc, hs, hm, Option.isSome_some, Bool.not_true,
    Bool.false_eq_true, if_false, Option.getD_some] at he
  split_ifs at he with h1 h2 h3 <;> simp only [Option.some.injEq] at he
  · exact Or.inl he.symm
  · exact Or.inr (Or.inl he.symm)
  · exact Or.inr (Or.inr he.symm)

/-- The source's validation chain refines the specification's ordered
six-check description, on any object whose `code`, `specs` and `mutate`
fields hold arrays (as every expanded object's do): the returned message
is exactly the message of the first failing check in the specified
order. -/
theorem areRequired_eq_spec (o' : Obj) (A B C : List JsVal)
    (hc : getField o' "code" = some (.arr A))
    (hs : getField o' "specs" = some (.arr B))
    (hm : getField o' "mutate" = some (.arr C)) :
    areRequiredOptionsSet o' = (specFirstFailure o').map sourceMsg := by
  by_cases ha : A.isEmpty <;> by_cases hb : B.isEmpty <;> by_cases hcc : C.isEmpty <;>
    simp [areRequiredOptionsSet, specFirstFailure, REQUIRED_CHECKS, checkHolds,
      hasOwn, lengthIsZero, sourceMsg, hc, hs, hm, ha, hcc, hb, List.find?]

/--
**C1.** Validation of a merged options object evaluates the six checks
in the specified fixed order with short-circuit (the message returned by
`areRequiredOptionsSet` is exactly the message of the first failing
check); whenever a check fails, resolution emits exactly one warning
whose message names the first failing field and returns the null
sentinel without raising; when all checks pass, no warning is emitted
and a non-null result is returned.
-/
theorem getOptions_validation (γ : String → String → List String)
    (g l : Obj) (st : LoggerState) (opts' : Obj)
    (h : expandOpts γ (mergedOpts g l) = .ok opts') :
    areRequiredOptionsSet opts' = (specFirstFailure opts').map sourceMsg ∧
    (∀ c, specFirstFailure opts' = some c →
      (getOptions γ g l st).1
        = .ok { result := none, warnings := [WARN_HEAD ++ sourceMsg c] }) ∧
    (specFirstFailure opts' = none →
      (getOptions γ g l st).1
        = .ok { result := some (ensureIgnoreConfig (ensureReportersConfig opts')),
                warnings := [] }) ∧
    (∀ c, msgNames (sourceMsg c) (checkField c)) := by
  obtain ⟨hc, hs, hm⟩ := expandOpts_shape γ (mergedOpts g l) opts' h
  have hval : areRequiredOptionsSet opts' = (specFirstFailure opts').map sourceMsg :=
    areRequired_eq_spec opts' _ _ _ hc hs hm
  refine ⟨hval, ?_, ?_, ?_⟩
  · intro c hcfail
    have hmsg : areRequiredOptionsSet opts' = some (sourceMsg c) := by
      rw [hval, hcfail]; rfl
    unfold getOptions
    simp only [h, hmsg]
  · intro hnone
    have hmsg : areRequiredOptionsSet opts' = none := by
      rw [hval, hnone]; rfl
    unfold getOptions
    simp only [h, hmsg]
  · intro c
    cases c <;> (unfold msgNames; decide)

/-- Witness for C1 at a concrete input: with only `code` supplied, the
first failing check (in order) is the `specs` emptiness check, and
resolution returns `null` with exactly that one warning. -/
theorem getOptions_validation_witness :
    (getOptions oneFileGlob [] [("code", JsVal.str "a.js")] ⟨"", false⟩).1
      = .ok { result := none,
              warnings := [WARN_HEAD ++ "Specs property is empty"] } :=
  (getOptions_validation oneFileGlob [] [("code", JsVal.str "a.js")] ⟨"", false⟩
    _ rfl).2.1 .specsNonEmpty rfl

/--
Counterexample to **C2** as stated: for the schema field `code`, a list
value set in the local layer does *not* win wholesale over the global
layer — lodash `_.merge` merges arrays index-wise, so global
`code: ["a","b"]` under local `code: ["c"]` yields `["c","b"]`, not the
local layer's `["c"]`.
-/
theorem mergedOpts_array_cex :
    getField (mergedOpts [("code", JsVal.arr [.str "a", .str "b"])]
        [("code", JsVal.arr [.str "c"])]) "code"
      = some (JsVal.arr [.str "c", .str "b"]) ∧
    getField [("code", JsVal.arr [.str "c"])] "code"
      = some (JsVal.arr [.str "c"]) ∧
    some (JsVal.arr [JsVal.str "c", JsVal.str "b"])
      ≠ some (JsVal.arr [JsVal.str "c"]) :=
  ⟨rfl, rfl, by simp⟩

/--
**C2 (amended).** For every pair of raw layers with JS-object key sets
(no duplicate keys) and every field, the merged configuration resolves
the field by applying the global then the local layer over
`DEFAULT_OPTIONS`, where an absent layer key leaves the value and a
present one deep-merges over it (objects key-wise and arrays index-wise
via `mergeVal`, every other value overwriting); in particular a
non-container value set in the local layer wins over the global layer,
which wins over the default.
-/
theorem mergedOpts_layering (g l : Obj) (k : String)
    (hg : (g.map Prod.fst).Nodup) (hl : (l.map Prod.fst).Nodup) :
    getField (mergedOpts g l) k
      = applyLayer (applyLayer (getField DEFAULT_OPTIONS k) (getField g k))
          (getField l k) ∧
    (∀ v, getField l k = some v → isScalar v = true →
      getField (mergedOpts g l) k = some v) ∧
    (∀ v, getField l k = none → getField g k = some v → isScalar v = true →
      getField (mergedOpts g l) k = some v) ∧
    (getField l k = none → getField g k = none →
      getField (mergedOpts g l) k = getField DEFAULT_OPTIONS k) := by
  have hchar := getField_mergedOpts g l k hg hl
  refine ⟨hchar, ?_, ?_, ?_⟩
  · intro v hv hsc
    rw [hchar, hv]
    simp [applyLayer, mergeVal_scalar _ _ hsc]
  · intro v hl0 hv hsc
    rw [hchar, hl0, hv]
    simp [applyLayer, mergeVal_scalar _ _ hsc]
  · intro hl0 hg0
    rw [hchar, hl0, hg0]
    rfl

/-- Witness for C2 (amended) at a concrete input: `logLevel` set in both
layers resolves to the local layer's value. -/
theorem mergedOpts_layering_witness :
    getField (mergedOpts [("logLevel", JsVal.str "WARN")]
        [("logLevel", JsVal.str "ERROR")]) "logLevel"
      = applyLayer (applyLayer (getField DEFAULT_OPTIONS "logLevel")
          (getField [("logLevel", JsVal.str "WARN")] "logLevel"))
          (getField [("logLevel", JsVal.str "ERROR")] "logLevel") ∧
    getField (mergedOpts [("logLevel", JsVal.str "WARN")]
        [("logLevel", JsVal.str "ERROR")]) "logLevel"
      = some (JsVal.str "ERROR") := by
  have h := mergedOpts_layering [("logLevel", JsVal.str "WARN")]
    [("logLevel", JsVal.str "ERROR")] "logLevel" (by simp) (by simp)
  exact ⟨h.1, h.2.1 _ rfl rfl⟩

/--
Counterexample to **C3** as stated: a caller-supplied but falsy `ignore`
(here the empty string) on an input that validates successfully resolves
to the bare built-in pattern — the supplied value is discarded, not
prepended to (the claim's "supplied an ignore value → prepended" case
demands `[builtin, ""]`).
-/
theorem ensureIgnore_falsy_pipeline_cex :
    ((getOptions oneFileGlob []
        [("code", JsVal.str "a.js"), ("specs", JsVal.str "b.js"),
         ("mutate", JsVal.str "c.js"), ("ignore", JsVal.str "")]
        ⟨"", false⟩).1.map
      (fun r => (r.result.map (fun o => getField o "ignore"), r.warnings)))
    = .ok (some (some DEFAULT_IGNORE), []) ∧
    some DEFAULT_IGNORE ≠ some (JsVal.arr [DEFAULT_IGNORE, JsVal.str ""]) :=
  ⟨rfl, by simp [DEFAULT_IGNORE]⟩

/--
**C3 (amended).** If `discardDefaultIgnore` is truthy the object is left
exactly as provided (`ignore` stays absent when absent); otherwise a
*truthy* caller-supplied `ignore` is resolved to a list with the
built-in pattern prepended (a single pattern becoming a list of two),
while a falsy supplied value or no value at all resolves to the bare
built-in pattern not wrapped in a list; no other field is touched.
-/
theorem ensureIgnoreConfig_amended (opts : Obj) :
    (truthyOpt (getField opts "discardDefaultIgnore") = true →
      ensureIgnoreConfig opts = opts) ∧
    (truthyOpt (getField opts "discardDefaultIgnore") = false →
      (∀ v, getField opts "ignore" = some v → truthy v = true →
        getField (ensureIgnoreConfig opts) "ignore"
          = some (.arr (jsConcat [DEFAULT_IGNORE] v))) ∧
      (∀ v, getField opts "ignore" = some v → truthy v = false →
        getField (ensureIgnoreConfig opts) "ignore" = some DEFAULT_IGNORE) ∧
      (getField opts "ignore" = none →
        getField (ensureIgnoreConfig opts) "ignore" = some DEFAULT_IGNORE) ∧
      (∀ k, k ≠ "ignore" →
        getField (ensureIgnoreConfig opts) k = getField opts k)) := by
  constructor
  · intro hd
    unfold ensureIgnoreConfig
    rw [hd]
    rfl
  · intro hd
    refine ⟨?_, ?_, ?_, ?_⟩
    · intro v hv ht
      unfold ensureIgnoreConfig
      rw [hd, hv]
      simp only [ht, if_true, Bool.not_false]
      exact getField_setField_self opts "ignore" _
    · intro v hv ht
      unfold ensureIgnoreConfig
      rw [hd, hv]
      simp only [ht, if_false, Bool.not_false, Bool.false_eq_true]
      exact getField_setField_self opts "ignore" _
    · intro hv
      unfold ensureIgnoreConfig
      rw [hd, hv]
      exact getField_setField_self opts "ignore" _
    · intro k hk
      unfold ensureIgnoreConfig
      rw [hd]
      exact getField_setField_ne opts "ignore" k _ hk

/-- Witness for C3 (amended): a supplied single truthy pattern becomes
the two-element list with the built-in pattern first. -/
theorem ensureIgnoreConfig_amended_witness :
    getField (ensureIgnoreConfig [("ignore", JsVal.str "foo")]) "ignore"
      = some (JsVal.arr [DEFAULT_IGNORE, JsVal.str "foo"]) :=
  ((ensureIgnoreConfig_amended [("ignore", JsVal.str "foo")]).2 rfl).1 _ rfl rfl

/--
**C9.** When `discardDefaultIgnore` is falsy and the merged `ignore`
value is present but falsy, the resolved `ignore` is the bare built-in
pattern: injection tests the value's truthiness, not the key's presence,
so the supplied falsy value is discarded rather than prepended to.
-/
theorem ensureIgnoreConfig_falsy (opts : Obj) (v : JsVal)
    (hd : truthyOpt (getField opts "discardDefaultIgnore") = false)
    (hv : getField opts "ignore" = some v) (hf : truthy v = false) :
    getField (ensureIgnoreConfig opts) "ignore" = some DEFAULT_IGNORE := by
  unfold ensureIgnoreConfig
  rw [hd, hv]
  simp only [hf, if_false, Bool.not_false, Bool.false_eq_true]
  exact getField_setField_self opts "ignore" _

/-- Witness for C9: `ignore: ""` (present, falsy) resolves to the bare
built-in pattern. -/
theorem ensureIgnoreConfig_falsy_witness :
    getField (ensureIgnoreConfig [("ignore", JsVal.str "")]) "ignore"
      = some DEFAULT_IGNORE :=
  ensureIgnoreConfig_falsy [("ignore", JsVal.str "")] (JsVal.str "") rfl rfl rfl

/--
**C4.** The reporters default `{console: true}` is injected exactly when
the `reporters` key is entirely absent from the merged object; any
present value — an empty mapping included — suppresses the default, and
the object then passes through completely unchanged.
-/
theorem ensureReportersConfig_spec (opts : Obj) :
    (hasOwn opts "reporters" = false →
      getField (ensureReportersConfig opts) "reporters"
        = some (.obj DEFAULT_REPORTER) ∧
      (∀ k, k ≠ "reporters" →
        getField (ensureReportersConfig opts) k = getField opts k)) ∧
    (hasOwn opts "reporters" = true → ensureReportersConfig opts = opts) := by
  constructor
  · intro h
    unfold ensureReportersConfig
    rw [h]
    exact ⟨getField_setField_self opts "reporters" _,
      fun k hk => getField_setField_ne opts "reporters" k _ hk⟩
  · intro h
    unfold ensureReportersConfig
    rw [h]
    rfl

/-- Witness for C4: with no `reporters` key the default is injected;
with an empty-mapping `reporters` the object is unchanged. -/
theorem ensureReportersConfig_spec_witness :
    getField (ensureReportersConfig []) "reporters"
      = some (JsVal.obj DEFAULT_REPORTER) ∧
    ensureReportersConfig [("reporters", JsVal.obj [])]
      = [("reporters", JsVal.obj [])] :=
  ⟨((ensureReportersConfig_spec []).1 rfl).1,
    (ensureReportersConfig_spec [("reporters", JsVal.obj [])]).2 rfl⟩

/--
**C5.** File expansion returns the empty list for an absent patterns
argument; a list of patterns is processed in the order given as the
left-to-right union of each pattern's filesystem matches with set
semantics (a path contributed by an earlier pattern is not added again;
first-seen order of new paths is preserved — `dedupFirst` of the
concatenated match lists); a single (non-empty) pattern behaves as the
one-element list; and every expansion result is duplicate-free.
-/
theorem expandFiles_spec (γ : String → String → List String) (b : String) :
    expandFiles γ none b = [] ∧
    (∀ ps : List String,
      expandFiles γ (some (.arr (ps.map .str))) b
        = dedupFirst ((ps.map (γ b)).flatten)) ∧
    (∀ p : String, p ≠ "" →
      expandFiles γ (some (.str p)) b = dedupFirst (γ b p)) ∧
    (∀ files : Option JsVal, (expandFiles γ files b).Nodup) :=
  ⟨expandFiles_none γ b,
    fun ps => expandFiles_arr γ b ps,
    fun p hp => expandFiles_single γ b p hp,
    fun files => expandFiles_nodup γ files b⟩

/-- Witness for C5: two patterns whose match lists overlap expand to the
first-seen-order union without the duplicate. -/
theorem expandFiles_spec_witness :
    expandFiles (fun _ p => [p, "x.js"])
        (some (.arr ([("a.js" : String), ("x.js" : String)].map .str))) "."
      = ["a.js", "x.js"] ∧
    expandFiles (fun _ p => [p, "x.js"]) (some (.str "a.js")) "."
      = ["a.js", "x.js"] :=
  ⟨by
    have h := (expandFiles_spec (fun _ p => [p, "x.js"]) ".").2.1
      ["a.js", "x.js"]
    simpa using h,
   by
    have h := (expandFiles_spec (fun _ p => [p, "x.js"]) ".").2.2.1
      "a.js" (by decide)
    simpa using h⟩

/-- Witness for C6: on empty raw layers the expansion pass completes and
the validation failure is the `code` emptiness message — one of the
three emptiness messages. -/
theorem validation_missing_unreachable_witness :
    ("Code property is empty" = "Code property is empty" ∨
     "Code property is empty" = "Specs property is empty" ∨
     "Code property is empty" = "Mutate property is empty") :=
  (validation_missing_unreachable oneFileGlob [] _ rfl).2.2.2
    "Code property is empty" rfl

/--
**C7.** When the merged options hold an object-valued `karma` field with
a `notIncluded` key, the expansion pass replaces `karma.notIncluded`
with its expanded file list, produced by the same `expandFiles` oracle
with the same `basePath` resolution root as `code`, `specs` and
`mutate`.
-/
theorem expandOpts_karma_notIncluded (γ : String → String → List String)
    (opts : Obj) (kf : Obj) (ni : JsVal)
    (hk : getField opts "karma" = some (.obj kf))
    (hni : getField kf "notIncluded" = some ni) :
    (expandOpts γ opts).map
        (fun o => (getField o "karma").bind (fun v => propOf v "notIncluded"))
      = .ok (some (strArr (expandFiles γ (some ni) (basePathOf opts)))) := by
  have hk3 : getField (expandMandatory γ opts) "karma" = some (.obj kf) := by
    rw [expandMandatory_other γ opts "karma" (by decide) (by decide) (by decide),
      hk]
  unfold expandOpts
  simp only [hk3, truthy, if_true]
  rw [expandMandatory_basePath γ opts]
  simp only [Except.map, getField_setField_self, Option.bind, propOf,
    getField_setField_self, hni]

/-- Witness for C7: a concrete `karma.notIncluded` pattern is expanded
against the concrete base path. -/
theorem expandOpts_karma_notIncluded_witness :
    (expandOpts oneFileGlob
        [("basePath", JsVal.str "."),
         ("karma", JsVal.obj [("notIncluded", JsVal.str "k.js")])]).map
        (fun o => (getField o "karma").bind (fun v => propOf v "notIncluded"))
      = .ok (some (JsVal.arr [JsVal.str "./k.js"])) :=
  expandOpts_karma_notIncluded oneFileGlob
    [("basePath", JsVal.str "."),
     ("karma", JsVal.obj [("notIncluded", JsVal.str "k.js")])]
    [("notIncluded", JsVal.str "k.js")] (JsVal.str "k.js") rfl rfl

/--
**C8.** Resolution is deterministic in its return value: running it a
second time on the same raw layers against the unchanged filesystem
oracle — in whatever process-wide logger state the first run left
behind — returns a structurally equal result (the logger component is
excluded from the comparison, and is the only thing the first run can
have changed).
-/
theorem getOptions_idempotent (γ : String → String → List String)
    (g l : Obj) (st : LoggerState) :
    (getOptions γ g l st).1
      = (getOptions γ g l ((getOptions γ g l st).2)).1 := rfl

/--
Counterexample to **C10** as stated: a truthy *primitive* `karma` value
(here `karma: true`) satisfies "truthy karma field lacking a
`notIncluded` key", yet resolution does not assign `karma.notIncluded` —
the strict-mode property write on a primitive raises a TypeError and the
expansion pass returns no object at all.
-/
theorem expandOpts_karma_primitive_cex :
    expandOpts oneFileGlob [("karma", JsVal.bool true)]
      = .error TYPE_ERROR := rfl

/--
**C10 (amended).** When the merged options hold a truthy plain-object
`karma` value lacking a `notIncluded` key, the expansion pass still
assigns `karma.notIncluded`, setting it to the empty list; when `karma`
is absent the field stays absent, and when it is present but falsy it is
left unchanged, with no `notIncluded` key introduced; a truthy
*primitive* `karma` instead makes the pass raise a TypeError
(strict-mode property write on a primitive) rather than assign.
-/
theorem expandOpts_karma_frame (γ : String → String → List String)
    (opts : Obj) :
    (∀ kf, getField opts "karma" = some (.obj kf) →
      hasOwn kf "notIncluded" = false →
      (expandOpts γ opts).map
          (fun o => (getField o "karma").bind (fun v => propOf v "notIncluded"))
        = .ok (some (.arr []))) ∧
    (getField opts "karma" = none →
      (expandOpts γ opts).map (fun o => getField o "karma") = .ok none) ∧
    (∀ v, getField opts "karma" = some v → truthy v = false →
      (expandOpts γ opts).map (fun o => getField o "karma") = .ok (some v)) ∧
    (∀ v, getField opts "karma" = some v → truthy v = true →
      isPrimitive v = true →
      expandOpts γ opts = .error TYPE_ERROR) := by
  refine ⟨?_, ?_, ?_, ?_⟩
  · intro kf hk hno
    have hni : getField kf "notIncluded" = none := by
      rcases hg : getField kf "notIncluded" with _ | w
      · rfl
      · rw [hasOwn, hg] at hno
        simp at hno
    have hk3 : getField (expandMandatory γ opts) "karma" = some (.obj kf) := by
      rw [expandMandatory_other γ opts "karma" (by decide) (by decide)
        (by decide), hk]
    unfold expandOpts
    simp only [hk3, truthy, if_true]
    simp only [Except.map, getField_setField_self, Option.bind, propOf,
      getField_setField_self, hni]
    rfl
  · intro hk
    have hk3 : getField (expandMandatory γ opts) "karma" = none := by
      rw [expandMandatory_other γ opts "karma" (by decide) (by decide)
        (by decide), hk]
    unfold expandOpts
    simp only [hk3, Except.map, hk3]
  · intro v hk hf
    have hk3 : getField (expandMandatory γ opts) "karma" = some v := by
      rw [expandMandatory_other γ opts "karma" (by decide) (by decide)
        (by decide), hk]
    unfold expandOpts
    simp only [hk3, hf, if_false, Bool.false_eq_true, Except.map, hk3]
  · intro v hk ht hp
    have hk3 : getField (expandMandatory γ opts) "karma" = some v := by
      rw [expandMandatory_other γ opts "karma" (by decide) (by decide)
        (by decide), hk]
    unfold expandOpts
    simp only [hk3, ht, if_true]
    cases v with
    | null => simp [truthy] at ht
    | bool b => rfl
    | num n => rfl
    | str s => rfl
    | regex r => simp [isPrimitive] at hp
    | func f => simp [isPrimitive] at hp
    | arr xs => simp [isPrimitive] at hp
    | obj fs => simp [isPrimitive] at hp

/-- Witness for C10 (amended): a truthy empty-object `karma` gains
`notIncluded = []`; an absent `karma` stays absent; a falsy `karma`
(`null`) is left unchanged; a truthy primitive `karma` (the number `5`)
raises the TypeError. -/
theorem expandOpts_karma_frame_witness :
    ((expandOpts oneFileGlob [("karma", JsVal.obj [])]).map
        (fun o => (getField o "karma").bind (fun v => propOf v "notIncluded"))
      = .ok (some (JsVal.arr []))) ∧
    ((expandOpts oneFileGlob []).map (fun o => getField o "karma")
      = .ok none) ∧
    ((expandOpts oneFileGlob [("karma", JsVal.null)]).map
        (fun o => getField o "karma") = .ok (some JsVal.null)) ∧
    (expandOpts oneFileGlob [("karma", JsVal.num 5)] = .error TYPE_ERROR) :=
  ⟨(expandOpts_karma_frame oneFileGlob [("karma", JsVal.obj [])]).1 [] rfl rfl,
   (expandOpts_karma_frame oneFileGlob []).2.1 rfl,
   (expandOpts_karma_frame oneFileGlob [("karma", JsVal.null)]).2.2.1
     JsVal.null rfl rfl,
   (expandOpts_karma_frame oneFileGlob [("karma", JsVal.num 5)]).2.2.2
     (JsVal.num 5) rfl rfl rfl⟩

end OptionUtils
